import Mathlib

/-!
Shallow embedding of the bit-tune Bitcoin P2P message codec (src/encode.rs and
the data structures of src/msg/ and src/blockdata/) and proofs about it.

Modelling conventions:
* A Rust byte (`u8`) is a `Nat`; well-formed bytes are `< 256`.  Wider Rust
  integers are `Nat` with explicit `% 2 ^ w` where the source truncates
  (`as` casts).
* A `std::io::Read` source is a `List Nat`; a decoder consumes a stream and
  returns the decoded value together with the unread remainder.
* A Rust panic (a failed `expect` on a short read, or a failed `assert!`)
  aborts decoding without producing a value; it is modelled as the error
  `Err.abort`, alongside the variants of the source's `encode::Error` enum.
* `net_encode` implementations write into a `Vec<u8>` sink and return the
  number of bytes written (every write in the sources appends its whole
  buffer and returns its length); we model the written bytes as a `List Nat`.
  For `VariableInteger`, whose returned count is claimed separately, the
  literal returned count of the source is modelled alongside the bytes.
-/

set_option maxRecDepth 10000

namespace BitTune

/-- Network magic enum of src/msg/header.rs. -/
inductive Magic where
  | main
  | test
  | unknown (v : Nat)
deriving DecidableEq, Repr

/-- Decode-time failures: the `encode::Error` enum of src/encode.rs, plus
`abort`, which models a Rust panic (`expect` / `assert!`) that also prevents a
value from being produced. `unknownCommand` carries the raw command string as
its byte list. -/
inductive Err where
  | invalidData
  | badNetworkMagic (m : Magic)
  | io
  | unknownCommand (s : List Nat)
  | abort
deriving DecidableEq, Repr

/-- Propositional equality on `Except` results is decidable, so concrete
decoder runs can be checked by `decide`. -/
instance {ε α : Type} [DecidableEq ε] [DecidableEq α] : DecidableEq (Except ε α) := fun
  | .ok a, .ok b => decidable_of_iff (a = b) (by simp)
  | .error a, .error b => decidable_of_iff (a = b) (by simp)
  | .ok _, .error _ => isFalse (by simp)
  | .error _, .ok _ => isFalse (by simp)

/-- Model of `read_exact`: consume exactly `n` bytes or abort (the sources
unwrap the result with `expect`, so a short read is a panic). -/
def readExact (n : Nat) (s : List Nat) : Except Err (List Nat × List Nat) :=
  if n ≤ s.length then .ok (s.take n, s.drop n) else .error .abort

/-- Model of plain `read` into a zero-initialised `n`-byte buffer (used by the
`Magic` and `Command` decoders): fills as many bytes as are available, the
rest of the buffer stays zero, and no error is raised. -/
def readUpTo (n : Nat) (s : List Nat) : List Nat × List Nat :=
  (s.take n ++ List.replicate (n - s.length) 0, s.drop n)

/-- Little-endian byte decomposition, as produced by Rust's `to_le_bytes`. -/
def leBytes : Nat → Nat → List Nat
  | 0, _ => []
  | w + 1, v => (v % 256) :: leBytes w (v / 256)

/-- The byte-reassembly loop of the `integer_le_decode` macro: starting from
the most significant byte, xor the byte in and shift left by 8. -/
def leLoop (buf : List Nat) : Nat :=
  buf.foldr (fun b acc => (acc <<< 8) ^^^ b) 0

/-- The `integer_le_decode` macro for a `width`-byte unsigned integer:
`read_exact` a `width`-byte buffer, run the reassembly loop, and cast the
`u64` accumulator to the target width (`ret as $int`). -/
def decodeUIntLE (width : Nat) (s : List Nat) : Except Err (Nat × List Nat) :=
  match readExact width s with
  | .error e => .error e
  | .ok (buf, rest) => .ok (leLoop buf % 2 ^ (8 * width), rest)

/-- `VariableInteger::net_encode` (src/encode.rs lines 179-203): bytes written
together with the returned `usize` (1 from the `u8` write, or the literal 3,
5, 9). The `as u16` / `as u32` casts are the explicit `%` reductions. -/
def VariableInteger.netEncode (v : Nat) : List Nat × Nat :=
  if v ≤ 0xFC then ([v % 256], 1)
  else if v ≤ 0xFFFF then (0xFD :: leBytes 2 (v % 2 ^ 16), 3)
  else if v ≤ 0xFFFFFFFF then (0xFE :: leBytes 4 (v % 2 ^ 32), 5)
  else (0xFF :: leBytes 8 v, 9)

/-- `VariableInteger::net_decode` (src/encode.rs lines 205-233): read a length
indicator, size the buffer by the 0xFD/0xFE/0xFF marker, read that buffer,
pad it with zero bytes to 8 bytes and decode it as a little-endian `u64`. -/
def VariableInteger.netDecode (s : List Nat) : Except Err (Nat × List Nat) :=
  match readExact 1 s with
  | .error e => .error e
  | .ok (li, s1) =>
    let b := li.headD 0
    let n : Nat := if b = 0xFD then 2 else if b = 0xFE then 4 else if b = 0xFF then 8 else 1
    if n = 1 then .ok (b, s1)
    else
      match readExact n s1 with
      | .error e => .error e
      | .ok (buf, s2) =>
        match decodeUIntLE 8 (buf ++ List.replicate (8 - n) 0) with
        | .error e => .error e
        | .ok (v, _) => .ok (v, s2)

/- ## SHA-256

The sources produce header checksums with `sha256d` (src/msg/header.rs lines
136-146), which applies the sha2 crate's SHA-256 twice. We embed SHA-256
(FIPS 180-4) executably over byte lists so the precomputed empty-payload
checksum constant can be checked against the real hash. -/

/-- Big-endian byte decomposition of a `width`-byte unsigned integer. -/
def beBytes : Nat → Nat → List Nat
  | 0, _ => []
  | w + 1, v => beBytes w (v / 256) ++ [v % 256]

/-- Rotate a 32-bit word right by `n`. -/
def rotr32 (n x : Nat) : Nat := ((x >>> n) ||| (x <<< (32 - n))) % 2 ^ 32

/-- SHA-256 choice function. -/
def shaCh (e f g : Nat) : Nat := (e &&& f) ^^^ ((e ^^^ 0xFFFFFFFF) &&& g)

/-- SHA-256 majority function. -/
def shaMaj (a b c : Nat) : Nat := (a &&& b) ^^^ (a &&& c) ^^^ (b &&& c)

/-- SHA-256 big sigma 0. -/
def shaBig0 (x : Nat) : Nat := rotr32 2 x ^^^ rotr32 13 x ^^^ rotr32 22 x

/-- SHA-256 big sigma 1. -/
def shaBig1 (x : Nat) : Nat := rotr32 6 x ^^^ rotr32 11 x ^^^ rotr32 25 x

/-- SHA-256 small sigma 0. -/
def shaSmall0 (x : Nat) : Nat := rotr32 7 x ^^^ rotr32 18 x ^^^ (x >>> 3)

/-- SHA-256 small sigma 1. -/
def shaSmall1 (x : Nat) : Nat := rotr32 17 x ^^^ rotr32 19 x ^^^ (x >>> 10)

/-- The 64 SHA-256 round constants. -/
def sha256K : List Nat :=
  [0x428a2f98, 0x71374491, 0xb5c0fbcf, 0xe9b5dba5,
   0x3956c25b, 0x59f111f1, 0x923f82a4, 0xab1c5ed5] ++
  [0xd807aa98, 0x12835b01, 0x243185be, 0x550c7dc3,
   0x72be5d74, 0x80deb1fe, 0x9bdc06a7, 0xc19bf174] ++
  [0xe49b69c1, 0xefbe4786, 0x0fc19dc6, 0x240ca1cc,
   0x2de92c6f, 0x4a7484aa, 0x5cb0a9dc, 0x76f988da] ++
  [0x983e5152, 0xa831c66d, 0xb00327c8, 0xbf597fc7,
   0xc6e00bf3, 0xd5a79147, 0x06ca6351, 0x14292967] ++
  [0x27b70a85, 0x2e1b2138, 0x4d2c6dfc, 0x53380d13,
   0x650a7354, 0x766a0abb, 0x81c2c92e, 0x92722c85] ++
  [0xa2bfe8a1, 0xa81a664b, 0xc24b8b70, 0xc76c51a3,
   0xd192e819, 0xd6990624, 0xf40e3585, 0x106aa070] ++
  [0x19a4c116, 0x1e376c08, 0x2748774c, 0x34b0bcb5,
   0x391c0cb3, 0x4ed8aa4a, 0x5b9cca4f, 0x682e6ff3] ++
  [0x748f82ee, 0x78a5636f, 0x84c87814, 0x8cc70208,
   0x90befffa, 0xa4506ceb, 0xbef9a3f7, 0xc67178f2]

/-- The SHA-256 initial hash state. -/
def sha256H0 : List Nat :=
  [0x6a09e667, 0xbb67ae85, 0x3c6ef372, 0xa54ff53a, 0x510e527f, 0x9b05688c, 0x1f83d9ab, 0x5be0cd19]

/-- Group bytes into big-endian 32-bit words. -/
def bytesToWordsBE : List Nat → List Nat
  | a :: b :: c :: d :: rest =>
    (((a <<< 24) ||| (b <<< 16) ||| (c <<< 8) ||| d) % 2 ^ 32) :: bytesToWordsBE rest
  | _ => []

/-- Extend the 16-word message schedule by `n` further words. -/
def shaExtend : Nat → List Nat → List Nat
  | 0, w => w
  | n + 1, w =>
    let l := w.length
    shaExtend n (w ++ [(shaSmall1 (w.getD (l - 2) 0) + w.getD (l - 7) 0 +
      shaSmall0 (w.getD (l - 15) 0) + w.getD (l - 16) 0) % 2 ^ 32])

/-- One SHA-256 round on the 8-word working state, given a round constant and
a schedule word. -/
def shaRound (st : List Nat) (kw : Nat × Nat) : List Nat :=
  match st with
  | [a, b, c, d, e, f, g, h] =>
    let t1 := (h + shaBig1 e + shaCh e f g + kw.1 + kw.2) % 2 ^ 32
    let t2 := (shaBig0 a + shaMaj a b c) % 2 ^ 32
    [(t1 + t2) % 2 ^ 32, a, b, c, (d + t1) % 2 ^ 32, e, f, g]
  | st => st

/-- Compress one 64-byte block into the hash state. -/
def shaCompress (h : List Nat) (block : List Nat) : List Nat :=
  let w := shaExtend 48 (bytesToWordsBE block)
  let st := (sha256K.zip w).foldl shaRound h
  (h.zip st).map (fun p => (p.1 + p.2) % 2 ^ 32)

/-- SHA-256 padding: append 0x80, zero bytes up to 56 mod 64, and the 8-byte
big-endian bit length. -/
def sha256Pad (msg : List Nat) : List Nat :=
  msg ++ [0x80] ++ List.replicate ((120 - ((msg.length + 1) % 64)) % 64) 0 ++
    beBytes 8 (8 * msg.length)

/-- Split a padded message (whose length is a multiple of 64) into 64-byte
blocks; the first argument is recursion fuel, at least the block count. -/
def chunk64Go : Nat → List Nat → List (List Nat)
  | _, [] => []
  | 0, _ => []
  | n + 1, s => s.take 64 :: chunk64Go n (s.drop 64)

/-- SHA-256 of a byte list, as a 32-byte digest. -/
def sha256 (msg : List Nat) : List Nat :=
  let padded := sha256Pad msg
  let hh := (chunk64Go padded.length padded).foldl shaCompress sha256H0
  hh.foldr (fun w acc => beBytes 4 w ++ acc) []

/-- The `sha256d` convenience function of src/msg/header.rs: SHA-256 applied
twice. -/
def sha256d (msg : List Nat) : List Nat := sha256 (sha256 msg)

/- ## Service flags (src/msg/network.rs) -/

/-- Node service flag enum of src/msg/network.rs. -/
inductive Service where
  | none
  | network
  | getUTXO
  | bloom
  | witness
  | compactFilters
  | networkLimited
deriving DecidableEq, Repr

/-- The SERVICE_BITS table of src/msg/network.rs lines 44-51. -/
def SERVICE_BITS : List Nat := [0, 1, 2, 3, 6, 10]

/-- Service::value: each service is a bit flag. -/
def Service.value : Service → Nat
  | .none => 0
  | .network => 1 <<< 0
  | .getUTXO => 1 <<< 1
  | .bloom => 1 <<< 2
  | .witness => 1 <<< 3
  | .compactFilters => 1 <<< 6
  | .networkLimited => 1 <<< 10

/-- Service::try_from_bit (src/msg/network.rs lines 67-78). -/
def Service.tryFromBit (flag : Nat) : Except Err Service :=
  if flag = 0 then .ok .none
  else if flag = 1 then .ok .network
  else if flag = 2 then .ok .getUTXO
  else if flag = 4 then .ok .bloom
  else if flag = 8 then .ok .witness
  else if flag = 64 then .ok .compactFilters
  else if flag = 1024 then .ok .networkLimited
  else .error .invalidData

/-- ServicesList is a HashSet of services; we model it as a duplicate-free
list. The set's iteration order is irrelevant to the codec: encoding folds
xor over the flags (order-independent) and equality is set equality. -/
def ServicesList.new : List Service := []

/-- HashSet::insert. -/
def ServicesList.addFlag (l : List Service) (flag : Service) : List Service :=
  if flag ∈ l then l else l ++ [flag]

/-- ServicesList::default: the explicit no-services sentinel. -/
def ServicesList.defaultList : List Service := [Service.none]

/-- ServicesList::net_encode (src/encode.rs lines 511-527): xor-fold the flag
values and emit the result as an 8-byte little-endian mask. -/
def ServicesList.netEncode (l : List Service) : List Nat :=
  leBytes 8 (l.foldl (fun acc s => acc ^^^ s.value) 0)

/-- The per-bit loop of ServicesList::net_decode: for each entry of
SERVICE_BITS, if the bit is set in the mask, look the flag up and add it. -/
def decodeFlagsLoop (flags : Nat) : List Nat → List Service → Except Err (List Service)
  | [], acc => .ok acc
  | bitp :: rest, acc =>
    if flags &&& (1 <<< bitp) = 1 <<< bitp then
      match Service.tryFromBit (1 <<< bitp) with
      | .error e => .error e
      | .ok f => decodeFlagsLoop flags rest (ServicesList.addFlag acc f)
    else decodeFlagsLoop flags rest acc

/-- ServicesList::net_decode (src/encode.rs lines 529-550). -/
def ServicesList.netDecode (s : List Nat) : Except Err (List Service × List Nat) :=
  match decodeUIntLE 8 s with
  | .error e => .error e
  | .ok (flags, rest) =>
    if flags = 0 then .ok (ServicesList.defaultList, rest)
    else
      match decodeFlagsLoop flags SERVICE_BITS ServicesList.new with
      | .error e => .error e
      | .ok l => .ok (l, rest)

/- ## IP and socket addresses (std::net types, codecs in src/encode.rs) -/

/-- std::net::IpAddr: a V4 address is its 4 octets, a V6 address its 16. -/
inductive IpAddr where
  | v4 (octets : List Nat)
  | v6 (octets : List Nat)
deriving DecidableEq, Repr

/-- std's Ipv4Addr::to_ipv6_mapped: the padding plus ff ff plus octets. -/
def Ipv4.toIpv6Mapped (o : List Nat) : List Nat :=
  [0, 0, 0, 0, 0, 0, 0, 0, 0, 0, 0xFF, 0xFF] ++ o

/-- std's Ipv6Addr::to_ipv4, as used by IpAddr::net_decode: demotes when the
first five 16-bit segments are zero and the sixth segment is 0 or 0xFFFF
(that is, for IPv4-compatible as well as IPv4-mapped addresses). -/
def Ipv6.toIpv4 (o : List Nat) : Option (List Nat) :=
  let seg6 := ((o.getD 10 0) <<< 8) ||| o.getD 11 0
  if o.take 10 = List.replicate 10 0 ∧ (seg6 = 0 ∨ seg6 = 0xFFFF) then
    some (o.drop 12)
  else none

/-- Ipv4Addr::net_encode (src/encode.rs lines 473-481): the IPv6-mapped
16-byte form. -/
def Ipv4Addr.netEncode (o : List Nat) : List Nat := Ipv4.toIpv6Mapped o

/-- IpAddr::net_encode (src/encode.rs lines 449-457). -/
def IpAddr.netEncode : IpAddr → List Nat
  | .v4 o => Ipv4Addr.netEncode o
  | .v6 o => o

/-- IpAddr::net_decode (src/encode.rs lines 459-471): decode 16 bytes as
IPv6, then demote through to_ipv4 when possible. -/
def IpAddr.netDecode (s : List Nat) : Except Err (IpAddr × List Nat) :=
  match readExact 16 s with
  | .error e => .error e
  | .ok (bytes, rest) =>
    match Ipv6.toIpv4 bytes with
    | some o4 => .ok (.v4 o4, rest)
    | none => .ok (.v6 bytes, rest)

/-- std::net::SocketAddr: ip plus 16-bit port. -/
structure SocketAddr where
  ip : IpAddr
  port : Nat
deriving DecidableEq, Repr

/-- SocketAddr::net_encode (src/encode.rs lines 432-438): ip, then the port's
big-endian bytes. -/
def SocketAddr.netEncode (a : SocketAddr) : List Nat :=
  a.ip.netEncode ++ beBytes 2 a.port

/-- SocketAddr::net_decode (src/encode.rs lines 440-447). The port is
reassembled with the source's exact expression
`portb[0] as u16 >> 8 | portb[1] as u16` (a right shift, not left). -/
def SocketAddr.netDecode (s : List Nat) : Except Err (SocketAddr × List Nat) :=
  match IpAddr.netDecode s with
  | .error e => .error e
  | .ok (ip, s1) =>
    match readExact 2 s1 with
    | .error e => .error e
    | .ok (portb, s2) => .ok (⟨ip, ((portb.getD 0 0) >>> 8) ||| portb.getD 1 0⟩, s2)

/-- Modelled from the spec: the `NetAddress` struct, services plus socket
address (spec section 3 and 4.3); its definition is absent from the sources
while its codec (src/encode.rs lines 552-570) fixes the field order. -/
structure NetAddress where
  services : List Service
  address : SocketAddr
deriving DecidableEq, Repr

/-- NetAddress::net_encode (src/encode.rs lines 552-558). -/
def NetAddress.netEncode (n : NetAddress) : List Nat :=
  ServicesList.netEncode n.services ++ n.address.netEncode

/-- NetAddress::net_decode (src/encode.rs lines 560-570). -/
def NetAddress.netDecode (s : List Nat) : Except Err (NetAddress × List Nat) :=
  match ServicesList.netDecode s with
  | .error e => .error e
  | .ok (sv, s1) =>
    match SocketAddr.netDecode s1 with
    | .error e => .error e
    | .ok (addr, s2) => .ok (⟨sv, addr⟩, s2)

/-- Modelled from the spec: `TimestampedNetAddress` prepends a 32-bit unix
timestamp in seconds to a NetAddress (spec section 4.3); its struct
definition is absent from the sources while its codec (src/encode.rs lines
572-592) fixes the layout. Durations are modelled at second granularity,
which is all the codec reads of them. -/
structure TimestampedNetAddress where
  timestamp : Nat
  netaddress : NetAddress
deriving DecidableEq, Repr

/-- TimestampedNetAddress::net_encode: `timestamp.as_secs() as u32`, little
endian, then the NetAddress. -/
def TimestampedNetAddress.netEncode (t : TimestampedNetAddress) : List Nat :=
  leBytes 4 (t.timestamp % 2 ^ 32) ++ t.netaddress.netEncode

/-- TimestampedNetAddress::net_decode. -/
def TimestampedNetAddress.netDecode (s : List Nat) :
    Except Err (TimestampedNetAddress × List Nat) :=
  match decodeUIntLE 4 s with
  | .error e => .error e
  | .ok (secs, s1) =>
    match NetAddress.netDecode s1 with
    | .error e => .error e
    | .ok (na, s2) => .ok (⟨secs, na⟩, s2)

/- ## Commands and magic (src/msg/header.rs) -/

/-- Network command enum of src/msg/header.rs; `unknown` carries the raw
command string as its ASCII byte list. -/
inductive Command where
  | version
  | verack
  | sendheaders
  | wtxidrelay
  | ping
  | pong
  | addr
  | getaddr
  | inv
  | getdata
  | notfound
  | tx
  | unknown (s : List Nat)
deriving DecidableEq, Repr

/-- Command::to_str, as ASCII byte lists. -/
def Command.toStr : Command → List Nat
  | .version => [118, 101, 114, 115, 105, 111, 110]
  | .verack => [118, 101, 114, 97, 99, 107]
  | .sendheaders => [115, 101, 110, 100, 104, 101, 97, 100, 101, 114, 115]
  | .wtxidrelay => [119, 116, 120, 105, 100, 114, 101, 108, 97, 121]
  | .ping => [112, 105, 110, 103]
  | .pong => [112, 111, 110, 103]
  | .addr => [97, 100, 100, 114]
  | .getaddr => [103, 101, 116, 97, 100, 100, 114]
  | .inv => [105, 110, 118]
  | .getdata => [103, 101, 116, 100, 97, 116, 97]
  | .notfound => [110, 111, 116, 102, 111, 117, 110, 100]
  | .tx => [116, 120]
  | .unknown s => s

/-- Command::from_str (src/msg/header.rs lines 111-127): an unmatched string
is the recoverable UnknownCommand error. -/
def Command.fromStr (cmd : List Nat) : Except Err Command :=
  if cmd = Command.version.toStr then .ok .version
  else if cmd = Command.verack.toStr then .ok .verack
  else if cmd = Command.sendheaders.toStr then .ok .sendheaders
  else if cmd = Command.wtxidrelay.toStr then .ok .wtxidrelay
  else if cmd = Command.ping.toStr then .ok .ping
  else if cmd = Command.pong.toStr then .ok .pong
  else if cmd = Command.addr.toStr then .ok .addr
  else if cmd = Command.getaddr.toStr then .ok .getaddr
  else if cmd = Command.inv.toStr then .ok .inv
  else if cmd = Command.getdata.toStr then .ok .getdata
  else if cmd = Command.notfound.toStr then .ok .notfound
  else if cmd = Command.tx.toStr then .ok .tx
  else .error (.unknownCommand cmd)

/-- Command::net_encode (src/encode.rs lines 257-265): the command string
copied into a zeroed 12-byte buffer (copy_from_slice panics for longer
strings; all strings in the claims fit). -/
def Command.netEncode (c : Command) : List Nat :=
  c.toStr ++ List.replicate (12 - c.toStr.length) 0

/-- Command::net_decode (src/encode.rs lines 267-281): read 12 bytes, take
the prefix up to the first zero byte, and parse it. -/
def Command.netDecode (s : List Nat) : Except Err (Command × List Nat) :=
  let (buf, rest) := readUpTo 12 s
  match Command.fromStr (buf.takeWhile (fun b => b != 0)) with
  | .error e => .error e
  | .ok c => .ok (c, rest)

/-- Magic::bytes (src/msg/header.rs lines 40-49): the u32 magic constant. -/
def Magic.bytes : Magic → Nat
  | .main => 0xD9B4BEF9
  | .test => 0xDAB5BFFA
  | .unknown v => v

/-- The `From<[u8; 4]> for Magic` conversion (src/msg/header.rs lines 51-62),
with the source's exact shift expression
`bytes[0] as u32 >> 24 | bytes[1] as u32 >> 16 | bytes[2] as u32 >> 8 |
bytes[3] as u32` (right shifts) in the unknown arm. -/
def Magic.fromArray (b : List Nat) : Magic :=
  if b = beBytes 4 Magic.main.bytes then .main
  else if b = beBytes 4 Magic.test.bytes then .test
  else .unknown (((b.getD 0 0) >>> 24) ||| ((b.getD 1 0) >>> 16) |||
    ((b.getD 2 0) >>> 8) ||| b.getD 3 0)

/-- Magic::net_encode (src/encode.rs lines 235-240): the u32 constant in
little endian. -/
def Magic.netEncode (m : Magic) : List Nat := leBytes 4 m.bytes

/-- Magic::net_decode (src/encode.rs lines 242-255): read 4 bytes, reverse
them, convert; an unknown magic is a hard error. -/
def Magic.netDecode (s : List Nat) : Except Err (Magic × List Nat) :=
  let (buf, rest) := readUpTo 4 s
  match Magic.fromArray buf.reverse with
  | .unknown v => .error (.badNetworkMagic (.unknown v))
  | m => .ok (m, rest)

/- ## Message header (src/msg/header.rs, codec in src/encode.rs) -/

/-- MessageHeader struct: magic, command, payload length (u32), checksum. -/
structure MessageHeader where
  magic : Magic
  command : Command
  length : Nat
  checksum : List Nat
deriving DecidableEq, Repr

/-- MessageHeader::new (src/msg/header.rs lines 21-30): the length is the
`pylen as u32` cast of a usize. -/
def MessageHeader.new (m : Magic) (c : Command) (pylen : Nat) (ck : List Nat) :
    MessageHeader :=
  ⟨m, c, pylen % 2 ^ 32, ck⟩

/-- MessageHeader::net_encode (src/encode.rs lines 283-291). -/
def MessageHeader.netEncode (h : MessageHeader) : List Nat :=
  h.magic.netEncode ++ h.command.netEncode ++ leBytes 4 h.length ++ h.checksum

/-- MessageHeader::net_decode (src/encode.rs lines 293-311). The source
recovers from an UnknownCommand error after the 12 command bytes were already
consumed from the mutable reader, so the stream resumes at
`(readUpTo 12 s1).2`. -/
def MessageHeader.netDecode (s : List Nat) : Except Err (MessageHeader × List Nat) :=
  match Magic.netDecode s with
  | .error e => .error e
  | .ok (magic, s1) =>
    let cmdStep : Except Err (Command × List Nat) :=
      match Command.netDecode s1 with
      | .ok x => .ok x
      | .error (.unknownCommand x) => .ok (.unknown x, (readUpTo 12 s1).2)
      | .error e => .error e
    match cmdStep with
    | .error e => .error e
    | .ok (command, s2) =>
      match decodeUIntLE 4 s2 with
      | .error e => .error e
      | .ok (length, s3) =>
        match readExact 4 s3 with
        | .error e => .error e
        | .ok (ck, s4) => .ok (MessageHeader.new magic command length ck, s4)

/- ## Inventory items (src/msg/inventory.rs, codec in src/encode.rs) -/

/-- Inventory enum; Txid/BlockHash are opaque 32-byte hashes whose
from_inner/into_inner conversions are the identity on the raw bytes. -/
inductive Inventory where
  | error
  | tx (h : List Nat)
  | block (h : List Nat)
  | filteredBlock (h : List Nat)
  | compactBlock (h : List Nat)
  | witnessTx (h : List Nat)
  | witnessBlock (h : List Nat)
  | filteredWitnessBlock (h : List Nat)
  | unknown (invType : Nat) (hash : List Nat)
deriving DecidableEq, Repr

/-- Inventory::identifier (src/msg/inventory.rs lines 42-54). -/
def Inventory.identifier : Inventory → Nat
  | .error => 0
  | .tx _ => 1
  | .block _ => 2
  | .filteredBlock _ => 3
  | .compactBlock _ => 4
  | .witnessTx _ => 0x40000001
  | .witnessBlock _ => 0x40000002
  | .filteredWitnessBlock _ => 0x40000003
  | .unknown invType _ => invType

/-- Inventory::from_id_and_hash (src/msg/inventory.rs lines 57-70); the Error
arm drops the hash. -/
def Inventory.fromIdAndHash (identifier : Nat) (hash : List Nat) : Inventory :=
  if identifier = 0 then .error
  else if identifier = 1 then .tx hash
  else if identifier = 2 then .block hash
  else if identifier = 3 then .filteredBlock hash
  else if identifier = 4 then .compactBlock hash
  else if identifier = 0x40000001 then .witnessTx hash
  else if identifier = 0x40000002 then .witnessBlock hash
  else if identifier = 0x40000003 then .filteredWitnessBlock hash
  else .unknown identifier hash

/-- Inventory::inner (src/msg/inventory.rs lines 74-86): the stored hash,
with 32 zero bytes for the Error variant. -/
def Inventory.inner : Inventory → List Nat
  | .error => List.replicate 32 0
  | .tx h => h
  | .block h => h
  | .filteredBlock h => h
  | .compactBlock h => h
  | .witnessTx h => h
  | .witnessBlock h => h
  | .filteredWitnessBlock h => h
  | .unknown _ h => h

/-- Inventory::net_encode (src/encode.rs lines 673-689): the u32 identifier
little endian, then the per-variant 32 hash bytes. -/
def Inventory.netEncode (i : Inventory) : List Nat :=
  leBytes 4 i.identifier ++
    (match i with
     | .error => List.replicate 32 0
     | .tx _ => i.inner
     | .block _ => i.inner
     | .filteredBlock _ => i.inner
     | .compactBlock _ => i.inner
     | .witnessTx _ => i.inner
     | .witnessBlock _ => i.inner
     | .filteredWitnessBlock _ => i.inner
     | .unknown _ h => h)

/-- Inventory::net_decode (src/encode.rs lines 691-701). -/
def Inventory.netDecode (s : List Nat) : Except Err (Inventory × List Nat) :=
  match decodeUIntLE 4 s with
  | .error e => .error e
  | .ok (id, s1) =>
    match readExact 32 s1 with
    | .error e => .error e
    | .ok (hash, s2) => .ok (Inventory.fromIdAndHash id hash, s2)

/- ## Version message (src/msg/network.rs, codec in src/encode.rs) -/

/-- VersionMessage struct; the agent string is its byte list and the
timestamp its seconds (all the codec uses of a Duration). -/
structure VersionMessage where
  version : Nat
  service : List Service
  timestamp : Nat
  addr_recv : NetAddress
  addr_from : NetAddress
  nonce : Nat
  agent : List Nat
  start_height : Nat
  relay : Bool
deriving DecidableEq, Repr

/-- String::net_encode (src/encode.rs lines 394-400): varint length prefix
plus the raw bytes (Rust strings modelled as byte lists, adequate for the
ASCII strings of the claims). -/
def StringCodec.netEncode (s : List Nat) : List Nat :=
  (VariableInteger.netEncode s.length).1 ++ s

/-- String::net_decode (src/encode.rs lines 402-416). -/
def StringCodec.netDecode (s : List Nat) : Except Err (List Nat × List Nat) :=
  match VariableInteger.netDecode s with
  | .error e => .error e
  | .ok (n, s1) => readExact n s1

/-- Duration::net_encode (src/encode.rs lines 594-602): as_secs as u64 LE. -/
def Duration.netEncode (secs : Nat) : List Nat := leBytes 8 secs

/-- Duration::net_decode (src/encode.rs lines 604-610). -/
def Duration.netDecode (s : List Nat) : Except Err (Nat × List Nat) :=
  decodeUIntLE 8 s

/-- VersionMessage::net_encode (src/encode.rs lines 612-625). -/
def VersionMessage.netEncode (v : VersionMessage) : List Nat :=
  leBytes 4 v.version ++
  ServicesList.netEncode v.service ++
  Duration.netEncode v.timestamp ++
  v.addr_recv.netEncode ++
  v.addr_from.netEncode ++
  leBytes 8 v.nonce ++
  StringCodec.netEncode v.agent ++
  leBytes 4 v.start_height ++
  [if v.relay then 1 else 0]

/-- VersionMessage::net_decode (src/encode.rs lines 627-656). -/
def VersionMessage.netDecode (s : List Nat) : Except Err (VersionMessage × List Nat) :=
  match decodeUIntLE 4 s with
  | .error e => .error e
  | .ok (version, s1) =>
  match ServicesList.netDecode s1 with
  | .error e => .error e
  | .ok (services, s2) =>
  match Duration.netDecode s2 with
  | .error e => .error e
  | .ok (timestamp, s3) =>
  match NetAddress.netDecode s3 with
  | .error e => .error e
  | .ok (addr_recv, s4) =>
  match NetAddress.netDecode s4 with
  | .error e => .error e
  | .ok (addr_from, s5) =>
  match decodeUIntLE 8 s5 with
  | .error e => .error e
  | .ok (nonce, s6) =>
  match StringCodec.netDecode s6 with
  | .error e => .error e
  | .ok (agent, s7) =>
  match decodeUIntLE 4 s7 with
  | .error e => .error e
  | .ok (start_height, s8) =>
  match decodeUIntLE 1 s8 with
  | .error e => .error e
  | .ok (relayByte, s9) =>
    .ok (⟨version, services, timestamp, addr_recv, addr_from, nonce, agent,
      start_height, relayByte ≠ 0⟩, s9)

/- ## Message payloads and messages (src/msg/data.rs, codec in src/encode.rs) -/

/-- MessagePayload enum, with the variants matched by the final codec in
src/encode.rs lines 379-391. -/
inductive MessagePayload where
  | version (v : VersionMessage)
  | pingPong (nonce : Nat)
  | emptyPayload
  | addrList (addrs : List TimestampedNetAddress)
  | invVect (inv : List Inventory)
  | dump (d : List Nat)
deriving DecidableEq, Repr

/-- MessagePayload::net_encode (src/encode.rs lines 379-391); list payloads
re-emit the varint count derived from the list length. -/
def MessagePayload.netEncode : MessagePayload → List Nat
  | .version v => v.netEncode
  | .pingPong n => leBytes 8 n
  | .emptyPayload => []
  | .addrList addrs =>
    (VariableInteger.netEncode addrs.length).1 ++
      (addrs.map TimestampedNetAddress.netEncode).flatten
  | .invVect inv =>
    (VariableInteger.netEncode inv.length).1 ++ (inv.map Inventory.netEncode).flatten
  | .dump d => d

/-- MessagePayload::len (src/msg/data.rs lines 77-84): the byte count
returned by encoding the payload into a fresh Vec (literal 0 for
EmptyPayload). The data.rs of the sources has no arm for the
PingPong/AddrList/InvVect variants; for those this is Modelled from the spec:
the header length is derived from the encoded payload (spec section 4.6). -/
def MessagePayload.len (p : MessagePayload) : Nat := p.netEncode.length

/-- MessagePayload::checksum: Version through the blanket encode-then-sha256d
impl (src/msg/network.rs lines 194-203), Dump hashing its raw bytes
(src/msg/data.rs lines 96-103, which equal its encoding), EmptyPayload the
precomputed constant 5D F6 E0 E2 (src/msg/data.rs lines 109-114). data.rs has
no arm for PingPong/AddrList/InvVect; for those this is Modelled from the
spec: the checksum is the truncated double-SHA256 of the encoded payload
(spec section 4.4). -/
def MessagePayload.checksum : MessagePayload → List Nat
  | .version v => (sha256d v.netEncode).take 4
  | .emptyPayload => [0x5D, 0xF6, 0xE0, 0xE2]
  | .dump d => (sha256d d).take 4
  | .pingPong n => (sha256d (MessagePayload.pingPong n).netEncode).take 4
  | .addrList a => (sha256d (MessagePayload.addrList a).netEncode).take 4
  | .invVect i => (sha256d (MessagePayload.invVect i).netEncode).take 4

/-- Message struct. -/
structure Message where
  header : MessageHeader
  payload : MessagePayload
deriving DecidableEq, Repr

/-- Message::new (src/msg/data.rs lines 55-62): the header's length and
checksum are always computed from the payload. -/
def Message.new (payload : MessagePayload) (magic : Magic) (command : Command) :
    Message :=
  ⟨MessageHeader.new magic command payload.len payload.checksum, payload⟩

/-- Decode `count` consecutive items with `dec` (the for-loops of the Addr
and Inv branches of Message::net_decode). -/
def decodeMany {α : Type} (dec : List Nat → Except Err (α × List Nat)) :
    Nat → List Nat → Except Err (List α × List Nat)
  | 0, s => .ok ([], s)
  | n + 1, s =>
    match dec s with
    | .error e => .error e
    | .ok (a, s1) =>
      match decodeMany dec n s1 with
      | .error e => .error e
      | .ok (l, s2) => .ok (a :: l, s2)

/-- Message::net_decode (src/encode.rs lines 326-377): decode the header,
then dispatch the payload decoder on the decoded command. The Addr branch
asserts the count cap of 100 before reading any entry; the source's match has
no arm for GetData/NotFound/Tx (it cannot run), modelled as an abort. -/
def Message.netDecode (s : List Nat) : Except Err (Message × List Nat) :=
  match MessageHeader.netDecode s with
  | .error e => .error e
  | .ok (header, s1) =>
    match header.command with
    | .version =>
      match VersionMessage.netDecode s1 with
      | .error e => .error e
      | .ok (v, s2) => .ok (⟨header, .version v⟩, s2)
    | .verack => .ok (⟨header, .emptyPayload⟩, s1)
    | .sendheaders => .ok (⟨header, .emptyPayload⟩, s1)
    | .wtxidrelay => .ok (⟨header, .emptyPayload⟩, s1)
    | .ping =>
      match decodeUIntLE 8 s1 with
      | .error e => .error e
      | .ok (n, s2) => .ok (⟨header, .pingPong n⟩, s2)
    | .pong =>
      match decodeUIntLE 8 s1 with
      | .error e => .error e
      | .ok (n, s2) => .ok (⟨header, .pingPong n⟩, s2)
    | .addr =>
      match VariableInteger.netDecode s1 with
      | .error e => .error e
      | .ok (count, s2) =>
        if count ≤ 100 then
          match decodeMany TimestampedNetAddress.netDecode count s2 with
          | .error e => .error e
          | .ok (addrs, s3) => .ok (⟨header, .addrList addrs⟩, s3)
        else .error .abort
    | .getaddr => .ok (⟨header, .emptyPayload⟩, s1)
    | .inv =>
      match VariableInteger.netDecode s1 with
      | .error e => .error e
      | .ok (count, s2) =>
        match decodeMany Inventory.netDecode count s2 with
        | .error e => .error e
        | .ok (items, s3) => .ok (⟨header, .invVect items⟩, s3)
    | .getdata => .error .abort
    | .notfound => .error .abort
    | .tx => .error .abort
    | .unknown _ =>
      match readExact header.length s1 with
      | .error e => .error e
      | .ok (buf, s2) => .ok (⟨header, .dump buf⟩, s2)

/- ## Auxiliary definitions used by claim statements -/

/-- A concrete version payload built from the address 1.2.3.4:8333, with the
default no-services flag set, used to evaluate the round-trip claim. -/
def exampleVersionMsg : VersionMessage :=
  { version := 70015
    service := [Service.none]
    timestamp := 1000
    addr_recv := ⟨[Service.none], ⟨.v4 [1, 2, 3, 4], 8333⟩⟩
    addr_from := ⟨[Service.none], ⟨.v4 [0, 0, 0, 0], 0⟩⟩
    nonce := 5
    agent := []
    start_height := 0
    relay := false }

/-- The services whose table bit is set in a mask: the expected output of
ServicesList::net_decode on a nonzero mask (known bits recognised in table
order, unrecognised bits ignored). -/
def knownFlagsOf (flags : Nat) : List Service :=
  (if flags &&& (1 <<< 0) = 1 <<< 0 then [Service.network] else []) ++
  (if flags &&& (1 <<< 1) = 1 <<< 1 then [Service.getUTXO] else []) ++
  (if flags &&& (1 <<< 2) = 1 <<< 2 then [Service.bloom] else []) ++
  (if flags &&& (1 <<< 3) = 1 <<< 3 then [Service.witness] else []) ++
  (if flags &&& (1 <<< 6) = 1 <<< 6 then [Service.compactFilters] else []) ++
  (if flags &&& (1 <<< 10) = 1 <<< 10 then [Service.networkLimited] else [])

/-- The twelve known command strings of Command::from_str. -/
def knownCommandStrings : List (List Nat) :=
  [Command.version.toStr, Command.verack.toStr, Command.sendheaders.toStr,
   Command.wtxidrelay.toStr, Command.ping.toStr, Command.pong.toStr,
   Command.addr.toStr, Command.getaddr.toStr, Command.inv.toStr,
   Command.getdata.toStr, Command.notfound.toStr, Command.tx.toStr]

/- ## Generic little-endian lemmas -/

theorem leBytes_length (w v : Nat) : (leBytes w v).length = w := by
  induction w generalizing v with
  | zero => rfl
  | succ w ih => simp [leBytes, ih]

theorem shiftLeft_xor_eq_add {b k : Nat} (a : Nat) (hb : b < 2 ^ k) :
    (a <<< k) ^^^ b = 2 ^ k * a + b := by
  apply Nat.eq_of_testBit_eq
  intro i
  rw [Nat.testBit_mul_pow_two_add a hb i]
  rcases Nat.lt_or_ge i k with h | h
  · have h1 : ¬ i ≥ k := Nat.not_le.mpr h
    simp [Nat.testBit_xor, Nat.testBit_shiftLeft, h1, h]
  · have h1 : b < 2 ^ i := Nat.lt_of_lt_of_le hb (Nat.pow_le_pow_right (by omega) h)
    have h2 : ¬ i < k := Nat.not_lt.mpr h
    simp [Nat.testBit_xor, Nat.testBit_shiftLeft, h, h2, Nat.testBit_lt_two_pow h1]

theorem shiftLeft_or_eq_add {b k : Nat} (a : Nat) (hb : b < 2 ^ k) :
    (a <<< k) ||| b = 2 ^ k * a + b := by
  apply Nat.eq_of_testBit_eq
  intro i
  rw [Nat.testBit_mul_pow_two_add a hb i]
  rcases Nat.lt_or_ge i k with h | h
  · have h1 : ¬ i ≥ k := Nat.not_le.mpr h
    simp [Nat.testBit_or, Nat.testBit_shiftLeft, h1, h]
  · have h1 : b < 2 ^ i := Nat.lt_of_lt_of_le hb (Nat.pow_le_pow_right (by omega) h)
    have h2 : ¬ i < k := Nat.not_lt.mpr h
    simp [Nat.testBit_or, Nat.testBit_shiftLeft, h, h2, Nat.testBit_lt_two_pow h1]

theorem leLoop_replicate_zero (k : Nat) : leLoop (List.replicate k 0) = 0 := by
  induction k with
  | zero => rfl
  | succ k ih =>
    simp [List.replicate, leLoop, List.foldr] at *
    simp [ih]

theorem leLoop_append_zeros (l : List Nat) (k : Nat) :
    leLoop (l ++ List.replicate k 0) = leLoop l := by
  unfold leLoop
  rw [List.foldr_append]
  have h0 : (List.replicate k 0).foldr (fun b acc => (acc <<< 8) ^^^ b) 0 = 0 :=
    leLoop_replicate_zero k
  rw [h0]

theorem leLoop_leBytes {w v : Nat} (hv : v < 2 ^ (8 * w)) :
    leLoop (leBytes w v) = v := by
  induction w generalizing v with
  | zero =>
    have : v = 0 := by simpa using hv
    simp [this, leBytes, leLoop]
  | succ w ih =>
    have hdiv : v / 256 < 2 ^ (8 * w) := by
      apply Nat.div_lt_of_lt_mul
      have : 2 ^ (8 * (w + 1)) = 2 ^ (8 * w) * 256 := by ring
      omega
    have hmod : v % 256 < 2 ^ 8 := Nat.mod_lt _ (by omega)
    have : leLoop ((v % 256) :: leBytes w (v / 256)) =
        ((leLoop (leBytes w (v / 256))) <<< 8) ^^^ (v % 256) := by
      simp [leLoop, List.foldr]
    rw [leBytes, this, ih hdiv, shiftLeft_xor_eq_add _ hmod]
    have : (2 : Nat) ^ 8 = 256 := by norm_num
    rw [this]
    omega

theorem readExact_append {n : Nat} {a : List Nat} (r : List Nat)
    (h : a.length = n) : readExact n (a ++ r) = .ok (a, r) := by
  unfold readExact
  have hlen : n ≤ (a ++ r).length := by simp [List.length_append]; omega
  rw [if_pos hlen]
  subst h
  simp [List.take_left, List.drop_left]

theorem decodeUIntLE_leBytes {w v : Nat} (r : List Nat) (hv : v < 2 ^ (8 * w)) :
    decodeUIntLE w (leBytes w v ++ r) = .ok (v, r) := by
  unfold decodeUIntLE
  rw [readExact_append r (leBytes_length w v)]
  simp [leLoop_leBytes hv, Nat.mod_eq_of_lt hv]

theorem readExact_whole {n : Nat} {a : List Nat} (h : a.length = n) :
    readExact n a = .ok (a, []) := by
  have := readExact_append (a := a) (n := n) [] h
  simpa using this

/- ## Varint lemmas -/

theorem varint_decode_single {v : Nat} (hv : v ≤ 0xFC) (r : List Nat) :
    VariableInteger.netDecode (v :: r) = .ok (v, r) := by
  have h1 : v ≠ 0xFD := by omega
  have h2 : v ≠ 0xFE := by omega
  have h3 : v ≠ 0xFF := by omega
  simp [VariableInteger.netDecode, readExact, h1, h2, h3]

theorem varint_decode_padded {w v : Nat} (hw : 2 ≤ w) (hw8 : w ≤ 8)
    (hv : v < 2 ^ (8 * w)) (marker : Nat)
    (hm : (if marker = 0xFD then 2 else if marker = 0xFE then 4
           else if marker = 0xFF then 8 else 1) = w) (r : List Nat) :
    VariableInteger.netDecode (marker :: (leBytes w v ++ r)) = .ok (v, r) := by
  have hv64 : v < 2 ^ 64 :=
    Nat.lt_of_lt_of_le hv (Nat.pow_le_pow_right (by omega) (by omega))
  have hlen : (leBytes w v ++ List.replicate (8 - w) 0).length = 8 := by
    simp [leBytes_length]
    omega
  have hdec : decodeUIntLE 8 (leBytes w v ++ List.replicate (8 - w) 0) = .ok (v, []) := by
    simp [decodeUIntLE, readExact_whole hlen, leLoop_append_zeros, leLoop_leBytes hv,
      Nat.mod_eq_of_lt (show v < 18446744073709551616 from hv64)]
  have hr1 : readExact 1 (marker :: (leBytes w v ++ r)) =
      .ok ([marker], leBytes w v ++ r) := by
    simpa using readExact_append (a := [marker]) (leBytes w v ++ r) rfl
  have hr2 : readExact w (leBytes w v ++ r) = .ok (leBytes w v, r) :=
    readExact_append r (leBytes_length w v)
  have hne : ¬ w = 1 := by omega
  simp [VariableInteger.netDecode, hr1, hm, hne, hr2, hdec]

theorem varint_decode_encode {v : Nat} (hv : v < 2 ^ 64) (r : List Nat) :
    VariableInteger.netDecode ((VariableInteger.netEncode v).1 ++ r) = .ok (v, r) := by
  unfold VariableInteger.netEncode
  by_cases h1 : v ≤ 0xFC
  · rw [if_pos h1]
    have hm : v % 256 = v := Nat.mod_eq_of_lt (by omega)
    simpa [hm] using varint_decode_single h1 r
  · rw [if_neg h1]
    by_cases h2 : v ≤ 0xFFFF
    · rw [if_pos h2]
      have hm : v % 2 ^ 16 = v := Nat.mod_eq_of_lt (by omega)
      rw [hm]
      simpa using varint_decode_padded (w := 2) (by omega) (by omega) (by omega) 0xFD (by decide) r
    · rw [if_neg h2]
      by_cases h3 : v ≤ 0xFFFFFFFF
      · rw [if_pos h3]
        have hm : v % 2 ^ 32 = v := Nat.mod_eq_of_lt (by omega)
        rw [hm]
        simpa using varint_decode_padded (w := 4) (by omega) (by omega) (by omega) 0xFE (by decide) r
      · rw [if_neg h3]
        simpa using varint_decode_padded (w := 8) (by omega) (by omega) hv 0xFF (by decide) r

/-- C3: every one of the four varint wire forms wide enough to hold `v`
decodes to exactly `v` (over-long encodings included), and decode is a left
inverse of encode on all of `u64`. -/
theorem C3_varint_decode_all_forms (v : Nat) (hv : v < 2 ^ 64) :
    (v ≤ 0xFC → VariableInteger.netDecode [v] = .ok (v, [])) ∧
    (v < 2 ^ 16 → VariableInteger.netDecode (0xFD :: leBytes 2 v) = .ok (v, [])) ∧
    (v < 2 ^ 32 → VariableInteger.netDecode (0xFE :: leBytes 4 v) = .ok (v, [])) ∧
    VariableInteger.netDecode (0xFF :: leBytes 8 v) = .ok (v, []) ∧
    VariableInteger.netDecode (VariableInteger.netEncode v).1 = .ok (v, []) := by
  refine ⟨fun h => varint_decode_single h [],
          fun h => by
            simpa using varint_decode_padded (w := 2) (by omega) (by omega) h 0xFD (by decide) [],
          fun h => by
            simpa using varint_decode_padded (w := 4) (by omega) (by omega) h 0xFE (by decide) [],
          by simpa using varint_decode_padded (w := 8) (by omega) (by omega) hv 0xFF (by decide) [],
          by simpa using varint_decode_encode hv []⟩

/-- Witness for C3 at the concrete value 300 (a value that also admits
over-long encodings). -/
theorem C3_varint_decode_all_forms_witness :
    300 < 2 ^ 64 ∧
    VariableInteger.netDecode (0xFD :: leBytes 2 300) = .ok (300, []) ∧
    VariableInteger.netDecode (VariableInteger.netEncode 300).1 = .ok (300, []) :=
  ⟨by norm_num,
   (C3_varint_decode_all_forms 300 (by norm_num)).2.1 (by norm_num),
   (C3_varint_decode_all_forms 300 (by norm_num)).2.2.2.2⟩

/-- C8: the varint boundary values 0x00, 0xFC, 0xFD, 0xFFFF, 0x10000,
0xFFFFFFFF and 0xFFFFFFFF+1 encode to 1, 1, 3, 3, 5, 5 and 9 written bytes
respectively, and `net_encode` returns that same count. -/
theorem C8_varint_boundary_lengths :
    ((VariableInteger.netEncode 0x00).1.length = 1 ∧ (VariableInteger.netEncode 0x00).2 = 1) ∧
    ((VariableInteger.netEncode 0xFC).1.length = 1 ∧ (VariableInteger.netEncode 0xFC).2 = 1) ∧
    ((VariableInteger.netEncode 0xFD).1.length = 3 ∧ (VariableInteger.netEncode 0xFD).2 = 3) ∧
    ((VariableInteger.netEncode 0xFFFF).1.length = 3 ∧ (VariableInteger.netEncode 0xFFFF).2 = 3) ∧
    ((VariableInteger.netEncode 0x10000).1.length = 5 ∧ (VariableInteger.netEncode 0x10000).2 = 5) ∧
    ((VariableInteger.netEncode 0xFFFFFFFF).1.length = 5 ∧ (VariableInteger.netEncode 0xFFFFFFFF).2 = 5) ∧
    ((VariableInteger.netEncode 0x100000000).1.length = 9 ∧ (VariableInteger.netEncode 0x100000000).2 = 9) := by
  decide

/- ## Concrete bug-evaluation theorems -/

/-- C7 (code-bug evaluation): decoding the non-magic bytes 01 02 03 04 does
return the hard error BadNetworkMagic, but the carried value is 0x01 — only
the first raw byte survives the `>> 24 | >> 16 | >> 8` reassembly of
`From<[u8; 4]> for Magic` — not the raw 4-byte value under either byte
order. -/
theorem C7_magic_unknown_carries_first_byte_only :
    Magic.netDecode [0x01, 0x02, 0x03, 0x04] =
      .error (.badNetworkMagic (.unknown 0x01)) ∧
    (0x01 : Nat) ≠ 0x04030201 ∧ (0x01 : Nat) ≠ 0x01020304 := by
  decide

/-- C1 (code-bug evaluation): encoding the version payload built from the
address 1.2.3.4:8333 and decoding it back succeeds but yields a payload whose
addr_recv port is 141 = 0x8D — only the low byte of 8333 = 0x208D survives
the `portb[0] as u16 >> 8 | portb[1] as u16` reassembly — so the round trip
does not preserve the port and the decoded payload differs from the
original. -/
theorem C1_version_roundtrip_drops_port_high_byte :
    (VersionMessage.netDecode exampleVersionMsg.netEncode).map
        (fun p => p.1.addr_recv.address.port) = .ok 141 ∧
    exampleVersionMsg.addr_recv.address.port = 8333 := by
  decide

/-- C4 counterexample: the mask 0x10 has only the unknown bit 4 set (a bit
outside the SERVICE_BITS table), yet ServicesList::net_decode succeeds with
an empty flag list instead of returning an error. -/
theorem C4_counterexample_unknown_bit_not_rejected :
    ServicesList.netDecode (leBytes 8 0x10) = .ok ([], []) := by
  decide

/-- C9 counterexample: the all-zero 16-byte sequence is not the IPv6-mapped
form of any IPv4 address, yet decoding demotes it to the IPv4 address 0.0.0.0
instead of keeping the IPv6 address unchanged. -/
theorem C9_counterexample_compatible_demoted :
    IpAddr.netDecode (List.replicate 16 0) = .ok (.v4 [0, 0, 0, 0], []) ∧
    List.replicate 16 0 ≠ Ipv4.toIpv6Mapped [0, 0, 0, 0] ∧
    IpAddr.netDecode (List.replicate 16 0) ≠
      .ok (.v6 (List.replicate 16 0), []) := by
  decide

/- ## Magic, command and header decode lemmas -/

theorem magic_decode_encode (m : Magic) (hm : m = Magic.main ∨ m = Magic.test)
    (r : List Nat) : Magic.netDecode (m.netEncode ++ r) = .ok (m, r) := by
  rcases hm with h | h <;> subst h <;>
    simp [Magic.netEncode, Magic.bytes, leBytes, Magic.netDecode, readUpTo,
      Magic.fromArray, beBytes]

theorem takeWhile_nonzero_append_zeros (s : List Nat) (hnz : ∀ b ∈ s, b ≠ 0)
    (k : Nat) :
    (s ++ List.replicate k 0).takeWhile (fun b => b != 0) = s := by
  induction s with
  | nil =>
    cases k with
    | zero => simp
    | succ k => simp [List.replicate_succ]
  | cons a t ih =>
    have ha : a ≠ 0 := hnz a (List.mem_cons_self a t)
    have ht : ∀ b ∈ t, b ≠ 0 := fun b hb => hnz b (List.mem_cons_of_mem a hb)
    simp [List.takeWhile_cons, ha, ih ht]

theorem fromStr_of_not_known (s : List Nat) (h : s ∉ knownCommandStrings) :
    Command.fromStr s = .error (.unknownCommand s) := by
  simp only [knownCommandStrings, List.mem_cons, List.mem_singleton, not_or] at h
  obtain ⟨h1, h2, h3, h4, h5, h6, h7, h8, h9, h10, h11, h12⟩ := h
  simp [Command.fromStr, h1, h2, h3, h4, h5, h6, h7, h8, h9, h10, h11, h12]

theorem command_decode_padded_unknown (s : List Nat) (hlen : s.length ≤ 12)
    (hnz : ∀ b ∈ s, b ≠ 0) (hunk : s ∉ knownCommandStrings) (r : List Nat) :
    Command.netDecode ((s ++ List.replicate (12 - s.length) 0) ++ r) =
      .error (.unknownCommand s) := by
  have hfield : (s ++ List.replicate (12 - s.length) 0).length = 12 := by
    simp
    omega
  have hrep : 12 - ((s ++ List.replicate (12 - s.length) 0) ++ r).length = 0 := by
    rw [List.length_append, hfield]
    omega
  unfold Command.netDecode readUpTo
  rw [List.take_left' hfield, hrep]
  simp [takeWhile_nonzero_append_zeros s hnz, fromStr_of_not_known s hunk]

theorem command_decode_encode_known (c : Command)
    (htos : Command.fromStr c.toStr = .ok c) (hlen : c.toStr.length ≤ 12)
    (hnz : ∀ b ∈ c.toStr, b ≠ 0) (r : List Nat) :
    Command.netDecode (Command.netEncode c ++ r) = .ok (c, r) := by
  have hfield : (Command.netEncode c).length = 12 := by
    simp [Command.netEncode]
    omega
  have hrep : 12 - (Command.netEncode c ++ r).length = 0 := by
    rw [List.length_append, hfield]
    omega
  have hdrop : (Command.netEncode c ++ r).drop 12 = r := List.drop_left' hfield
  unfold Command.netDecode readUpTo
  rw [List.take_left' hfield, hrep, hdrop]
  unfold Command.netEncode
  simp [takeWhile_nonzero_append_zeros c.toStr hnz, htos]

theorem header_decode_known (m : Magic) (hm : m = Magic.main ∨ m = Magic.test)
    (c : Command)
    (hcmd : ∀ r : List Nat, Command.netDecode (Command.netEncode c ++ r) = .ok (c, r))
    (L : Nat) (hL : L < 2 ^ 32) (ck : List Nat) (hck : ck.length = 4)
    (payload : List Nat) :
    MessageHeader.netDecode
        (m.netEncode ++ Command.netEncode c ++ leBytes 4 L ++ ck ++ payload) =
      .ok (⟨m, c, L, ck⟩, payload) := by
  have hdec := decodeUIntLE_leBytes (w := 4) (v := L) (ck ++ payload) hL
  have hckr := readExact_append (a := ck) payload hck
  have hmod : L % 2 ^ 32 = L := Nat.mod_eq_of_lt hL
  have hcmd2 : Command.netDecode (Command.netEncode c ++ (leBytes 4 L ++ (ck ++ payload))) =
      .ok (c, leBytes 4 L ++ (ck ++ payload)) := hcmd _
  simp only [List.append_assoc]
  unfold MessageHeader.netDecode
  rw [magic_decode_encode m hm]
  simp only [hcmd2, hdec, hckr, MessageHeader.new, hmod]

theorem header_decode_unknown (m : Magic) (hm : m = Magic.main ∨ m = Magic.test)
    (s : List Nat) (hlen : s.length ≤ 12) (hnz : ∀ b ∈ s, b ≠ 0)
    (hunk : s ∉ knownCommandStrings)
    (L : Nat) (hL : L < 2 ^ 32) (ck : List Nat) (hck : ck.length = 4)
    (payload : List Nat) :
    MessageHeader.netDecode
        (m.netEncode ++ (s ++ List.replicate (12 - s.length) 0) ++ leBytes 4 L ++
          ck ++ payload) =
      .ok (⟨m, .unknown s, L, ck⟩, payload) := by
  have hfield : (s ++ List.replicate (12 - s.length) 0).length = 12 := by
    simp
    omega
  have hdec := decodeUIntLE_leBytes (w := 4) (v := L) (ck ++ payload) hL
  have hckr := readExact_append (a := ck) payload hck
  have hmod : L % 2 ^ 32 = L := Nat.mod_eq_of_lt hL
  have hcmd2 : Command.netDecode (s ++ (List.replicate (12 - s.length) 0 ++
      (leBytes 4 L ++ (ck ++ payload)))) = .error (.unknownCommand s) := by
    have h := command_decode_padded_unknown s hlen hnz hunk
      (leBytes 4 L ++ (ck ++ payload))
    simpa [List.append_assoc] using h
  have hdrop2 : List.drop 12 (s ++ (List.replicate (12 - s.length) 0 ++
      (leBytes 4 L ++ (ck ++ payload)))) = leBytes 4 L ++ (ck ++ payload) := by
    have h : ((s ++ List.replicate (12 - s.length) 0) ++
        (leBytes 4 L ++ (ck ++ payload))).drop 12 =
        leBytes 4 L ++ (ck ++ payload) := List.drop_left' hfield
    simpa [List.append_assoc] using h
  simp only [List.append_assoc]
  unfold MessageHeader.netDecode
  rw [magic_decode_encode m hm]
  simp only [hcmd2, readUpTo, hdrop2, hdec, hckr, MessageHeader.new, hmod]

/-- C5: a well-formed message whose 12-byte null-padded ASCII command field
names no known command and declares payload length N (with at least N payload
bytes available) decodes without error: the payload is a Dump of exactly the
first N payload bytes, the header's command is Unknown carrying the original
command string, and that command re-encodes to the original 12-byte field. -/
theorem C5_unknown_command_decodes_to_dump (m : Magic)
    (hm : m = Magic.main ∨ m = Magic.test)
    (s : List Nat) (hlen : s.length ≤ 12) (hnz : ∀ b ∈ s, b ≠ 0)
    (_hascii : ∀ b ∈ s, b < 128) (hunk : s ∉ knownCommandStrings)
    (N : Nat) (hN : N < 2 ^ 32) (ck : List Nat) (hck : ck.length = 4)
    (payload : List Nat) (hpl : N ≤ payload.length) :
    Message.netDecode
        (m.netEncode ++ (s ++ List.replicate (12 - s.length) 0) ++ leBytes 4 N ++
          ck ++ payload) =
      .ok (⟨⟨m, .unknown s, N, ck⟩, .dump (payload.take N)⟩, payload.drop N) ∧
    Command.netEncode (.unknown s) = s ++ List.replicate (12 - s.length) 0 := by
  constructor
  · have hheader := header_decode_unknown m hm s hlen hnz hunk N hN ck hck payload
    simp only [List.append_assoc] at hheader ⊢
    unfold Message.netDecode
    rw [hheader]
    simp [readExact, hpl]
  · simp [Command.netEncode, Command.toStr]

/-- Witness for C5: the unknown command "bogus" with declared length 3 and a
4-byte payload decodes to a Dump of the first 3 payload bytes. -/
theorem C5_unknown_command_decodes_to_dump_witness :
    Message.netDecode
        (Magic.main.netEncode ++
          ([98, 111, 103, 117, 115] ++ List.replicate 7 0) ++ leBytes 4 3 ++
          [9, 9, 9, 9] ++ [1, 2, 3, 4]) =
      .ok (⟨⟨Magic.main, .unknown [98, 111, 103, 117, 115], 3, [9, 9, 9, 9]⟩,
            .dump [1, 2, 3]⟩, [4]) ∧
    Command.netEncode (.unknown [98, 111, 103, 117, 115]) =
      [98, 111, 103, 117, 115] ++ List.replicate 7 0 := by
  have h := C5_unknown_command_decodes_to_dump Magic.main (Or.inl rfl)
    [98, 111, 103, 117, 115] (by decide) (by decide) (by decide) (by decide)
    3 (by norm_num) [9, 9, 9, 9] (by decide) [1, 2, 3, 4] (by decide)
  simpa using h

/-- C6: decoding a message whose command is addr and whose payload starts
with a varint count strictly greater than 100 fails with the count-cap abort,
whatever bytes follow the count — no address entry is read. -/
theorem C6_addr_count_cap (m : Magic) (hm : m = Magic.main ∨ m = Magic.test)
    (L : Nat) (hL : L < 2 ^ 32) (ck : List Nat) (hck : ck.length = 4)
    (count : Nat) (h100 : 100 < count) (h64 : count < 2 ^ 64) (rest : List Nat) :
    Message.netDecode
        (m.netEncode ++ Command.netEncode Command.addr ++ leBytes 4 L ++ ck ++
          ((VariableInteger.netEncode count).1 ++ rest)) =
      .error .abort := by
  have hcmd : ∀ r : List Nat,
      Command.netDecode (Command.netEncode Command.addr ++ r) = .ok (.addr, r) :=
    fun r => command_decode_encode_known Command.addr (by decide) (by decide)
      (by decide) r
  have hcap : ¬ count ≤ 100 := by omega
  have hheader := header_decode_known m hm Command.addr hcmd L hL ck hck
    ((VariableInteger.netEncode count).1 ++ rest)
  simp only [List.append_assoc] at hheader ⊢
  unfold Message.netDecode
  rw [hheader]
  simp [varint_decode_encode h64, hcap]

/-- Witness for C6: an addr message declaring 101 addresses aborts. -/
theorem C6_addr_count_cap_witness :
    Message.netDecode
        (Magic.main.netEncode ++ Command.netEncode Command.addr ++ leBytes 4 0 ++
          [9, 9, 9, 9] ++ ((VariableInteger.netEncode 101).1 ++ [])) =
      .error .abort :=
  C6_addr_count_cap Magic.main (Or.inl rfl) 0 (by norm_num) [9, 9, 9, 9]
    (by decide) 101 (by norm_num) (by norm_num) []

/- ## C4: services decode ignores unknown bits -/

theorem decodeFlagsLoop_cons (flags b : Nat) (bits : List Nat)
    (acc : List Service) (f : Service)
    (hf : Service.tryFromBit (1 <<< b) = .ok f) :
    decodeFlagsLoop flags (b :: bits) acc =
      decodeFlagsLoop flags bits
        (if flags &&& (1 <<< b) = 1 <<< b then ServicesList.addFlag acc f
         else acc) := by
  by_cases hc : flags &&& (1 <<< b) = 1 <<< b
  · simp only [decodeFlagsLoop, hf, if_pos hc]
  · simp only [decodeFlagsLoop, hf, if_neg hc]

/-- C4 amended: decoding an 8-byte little-endian services mask never fails:
a zero mask yields the distinguishable no-services default, and a nonzero
mask yields exactly the flags of the known table bits {0,1,2,3,6,10} that are
set — bits outside the table are silently ignored, not rejected. -/
theorem C4_amended_unknown_bits_ignored (flags : Nat) (h : flags < 2 ^ 64)
    (r : List Nat) :
    ServicesList.netDecode (leBytes 8 flags ++ r) =
      .ok (if flags = 0 then ServicesList.defaultList else knownFlagsOf flags, r) := by
  have hdec := decodeUIntLE_leBytes (w := 8) (v := flags) r h
  unfold ServicesList.netDecode
  rw [hdec]
  by_cases h0 : flags = 0
  · simp [h0]
  · have hloop : decodeFlagsLoop flags SERVICE_BITS ServicesList.new =
        .ok (knownFlagsOf flags) := by
      show decodeFlagsLoop flags [0, 1, 2, 3, 6, 10] ServicesList.new =
        .ok (knownFlagsOf flags)
      rw [decodeFlagsLoop_cons flags 0 _ _ Service.network rfl,
        decodeFlagsLoop_cons flags 1 _ _ Service.getUTXO rfl,
        decodeFlagsLoop_cons flags 2 _ _ Service.bloom rfl,
        decodeFlagsLoop_cons flags 3 _ _ Service.witness rfl,
        decodeFlagsLoop_cons flags 6 _ _ Service.compactFilters rfl,
        decodeFlagsLoop_cons flags 10 _ _ Service.networkLimited rfl]
      unfold decodeFlagsLoop
      unfold knownFlagsOf
      split_ifs <;> rfl
    simp [h0, hloop]

/-- Witness for C4 amended at mask 0x411 (known bits 0 and 10 set, unknown
bit 4 set): decode succeeds with exactly the two known flags. -/
theorem C4_amended_unknown_bits_ignored_witness :
    ServicesList.netDecode (leBytes 8 1041) =
      .ok ([Service.network, Service.networkLimited], []) := by
  have h := C4_amended_unknown_bits_ignored 1041 (by norm_num) []
  simpa [knownFlagsOf] using h

/- ## C9: IPv4 demotion on decode -/

theorem getD_mem_of_lt {l : List Nat} {i : Nat} (h : i < l.length) (d : Nat) :
    l.getD i d ∈ l := by
  have he : l[i]? = some l[i] := List.getElem?_eq_getElem h
  rw [List.getD_eq_getElem?_getD, he]
  simpa using List.getElem_mem h

/-- C9 amended: an IPv4 address encodes to its IPv6-mapped 16-byte form, and
decoding 16 bytes demotes to the IPv4 address of the last 4 bytes exactly
when the first 10 bytes are zero and bytes 10 and 11 are both 0xFF (the
IPv6-mapped pattern) or both 0 (the IPv4-compatible pattern, which std's
to_ipv4 also demotes); any other 16-byte sequence stays IPv6 unchanged. -/
theorem C9_amended_ipv4_demotion (o : List Nat) (h16 : o.length = 16)
    (hbytes : ∀ b ∈ o, b < 256) (a b c d : Nat) :
    Ipv4Addr.netEncode [a, b, c, d] =
      [0, 0, 0, 0, 0, 0, 0, 0, 0, 0, 0xFF, 0xFF, a, b, c, d] ∧
    IpAddr.netDecode o =
      .ok ((if o.take 10 = List.replicate 10 0 ∧
              ((o.getD 10 0 = 0xFF ∧ o.getD 11 0 = 0xFF) ∨
               (o.getD 10 0 = 0 ∧ o.getD 11 0 = 0))
            then IpAddr.v4 (o.drop 12) else IpAddr.v6 o), []) := by
  constructor
  · rfl
  · have h10 : o.getD 10 0 < 256 := hbytes _ (getD_mem_of_lt (by omega) 0)
    have h11 : o.getD 11 0 < 256 := hbytes _ (getD_mem_of_lt (by omega) 0)
    have hseg : (o.getD 10 0 <<< 8) ||| o.getD 11 0 =
        256 * o.getD 10 0 + o.getD 11 0 := by
      have := shiftLeft_or_eq_add (k := 8) (o.getD 10 0) (by omega : o.getD 11 0 < 2 ^ 8)
      simpa using this
    unfold IpAddr.netDecode
    rw [readExact_whole h16]
    unfold Ipv6.toIpv4
    simp only [hseg]
    by_cases hc : o.take 10 = List.replicate 10 0 ∧
        ((o.getD 10 0 = 0xFF ∧ o.getD 11 0 = 0xFF) ∨
         (o.getD 10 0 = 0 ∧ o.getD 11 0 = 0))
    · have hc1 : o.take 10 = List.replicate 10 0 ∧
          (256 * o.getD 10 0 + o.getD 11 0 = 0 ∨
           256 * o.getD 10 0 + o.getD 11 0 = 0xFFFF) := by
        obtain ⟨ht, hv⟩ := hc
        exact ⟨ht, by omega⟩
      rw [if_pos hc1, if_pos hc]
    · have hc1 : ¬ (o.take 10 = List.replicate 10 0 ∧
          (256 * o.getD 10 0 + o.getD 11 0 = 0 ∨
           256 * o.getD 10 0 + o.getD 11 0 = 0xFFFF)) := by
        intro hcc
        obtain ⟨ht, hv⟩ := hcc
        exact hc ⟨ht, by omega⟩
      rw [if_neg hc1, if_neg hc]

/-- Witness for C9 at the IPv6-mapped bytes of 1.2.3.4: decode demotes to the
IPv4 address. -/
theorem C9_amended_ipv4_demotion_witness :
    IpAddr.netDecode [0, 0, 0, 0, 0, 0, 0, 0, 0, 0, 0xFF, 0xFF, 1, 2, 3, 4] =
      .ok (IpAddr.v4 [1, 2, 3, 4], []) := by
  have h := (C9_amended_ipv4_demotion
    [0, 0, 0, 0, 0, 0, 0, 0, 0, 0, 0xFF, 0xFF, 1, 2, 3, 4]
    (by decide) (by decide) 0 0 0 0).2
  simpa using h

/- ## C10: inventory round trip -/

theorem inventory_reencode_of_ne_zero (id : Nat) (hash : List Nat) (h : id ≠ 0) :
    (Inventory.fromIdAndHash id hash).netEncode = leBytes 4 id ++ hash := by
  unfold Inventory.fromIdAndHash
  rw [if_neg h]
  split_ifs with h1 h2 h3 h4 h5 h6 h7 <;>
    simp_all [Inventory.netEncode, Inventory.identifier, Inventory.inner]

/-- C10: a 36-byte inventory encoding (4-byte LE type id, then a 32-byte
hash) decodes to from_id_and_hash of its parts, and re-encoding reproduces
the input bytes exactly if and only if the id is nonzero or the hash is all
zeros: nonzero ids (known or unknown) keep their hash verbatim, while id 0
re-encodes with 32 zero bytes. -/
theorem C10_inventory_roundtrip (id : Nat) (hid : id < 2 ^ 32)
    (hash : List Nat) (hlen : hash.length = 32) :
    Inventory.netDecode (leBytes 4 id ++ hash) =
      .ok (Inventory.fromIdAndHash id hash, []) ∧
    ((Inventory.fromIdAndHash id hash).netEncode = leBytes 4 id ++ hash ↔
      (id ≠ 0 ∨ hash = List.replicate 32 0)) := by
  constructor
  · have hdec := decodeUIntLE_leBytes (w := 4) (v := id) hash hid
    simp [Inventory.netDecode, hdec, readExact_whole hlen]
  · by_cases h0 : id = 0
    · subst h0
      simp only [Inventory.fromIdAndHash, if_pos rfl]
      constructor
      · intro he
        right
        have hap : leBytes 4 0 ++ List.replicate 32 0 = leBytes 4 0 ++ hash := by
          simpa [Inventory.netEncode, Inventory.identifier] using he
        exact (List.append_cancel_left hap).symm
      · rintro (hfalse | hzero)
        · exact absurd rfl hfalse
        · rw [hzero]
          simp [Inventory.netEncode, Inventory.identifier]
    · exact ⟨fun _ => Or.inl h0, fun _ => inventory_reencode_of_ne_zero id hash h0⟩

/-- Witness for C10 with the known id 1 and a nonzero hash: decode succeeds
and re-encoding reproduces the input. -/
theorem C10_inventory_roundtrip_witness :
    Inventory.netDecode (leBytes 4 1 ++ List.replicate 32 7) =
      .ok (Inventory.fromIdAndHash 1 (List.replicate 32 7), []) ∧
    ((Inventory.fromIdAndHash 1 (List.replicate 32 7)).netEncode =
        leBytes 4 1 ++ List.replicate 32 7 ↔
      ((1 : Nat) ≠ 0 ∨ List.replicate 32 7 = List.replicate 32 0)) :=
  C10_inventory_roundtrip 1 (by norm_num) (List.replicate 32 7) (by simp)

/- ## C2: header consistency from Message::new -/

/-- C2 counterexample: a Dump payload of 2^32 bytes encodes to 2^32 bytes,
but the header built by Message::new carries length field 0 — the usize
length is truncated by the `as u32` cast — so the length field does not equal
the byte length of the encoded payload for every payload. -/
theorem C2_counterexample_length_truncated :
    ((MessagePayload.dump (List.replicate (2 ^ 32) 0)).netEncode).length = 2 ^ 32 ∧
    (Message.new (.dump (List.replicate (2 ^ 32) 0)) .main .verack).header.length
      = 0 ∧
    (Message.new (.dump (List.replicate (2 ^ 32) 0)) .main .verack).header.length
      ≠ ((MessagePayload.dump (List.replicate (2 ^ 32) 0)).netEncode).length := by
  have hA : ((MessagePayload.dump (List.replicate (2 ^ 32) 0)).netEncode).length
      = 2 ^ 32 := by
    show (List.replicate (2 ^ 32) (0 : Nat)).length = 2 ^ 32
    rw [List.length_replicate]
  have hB : (Message.new (.dump (List.replicate (2 ^ 32) 0)) .main
      .verack).header.length = 0 := by
    have h1 : (MessagePayload.dump (List.replicate (2 ^ 32) 0)).len = 2 ^ 32 := by
      show (List.replicate (2 ^ 32) (0 : Nat)).length = 2 ^ 32
      rw [List.length_replicate]
    have h2 : ∀ (p : MessagePayload) (m : Magic) (c : Command),
        (Message.new p m c).header.length = p.len % 2 ^ 32 := fun p m c => rfl
    rw [h2, h1]
    norm_num
  refine ⟨hA, hB, ?_⟩
  rw [hA, hB]
  norm_num

/-- C2 amended: for payloads whose encoding is shorter than 2^32 bytes (all
protocol-legal ones), Message::new produces a header whose length field
equals the encoded payload's byte length and whose checksum equals the first
4 bytes of double-SHA256 of the encoded payload; the empty payload gets
length 0 and the precomputed checksum 5D F6 E0 E2, which equals the real
truncated double-SHA256 of the empty encoding. -/
theorem C2_amended_header_consistency (p : MessagePayload) (m : Magic)
    (c : Command) (h : p.netEncode.length < 2 ^ 32) :
    (Message.new p m c).header.length = p.netEncode.length ∧
    (Message.new p m c).header.checksum = (sha256d p.netEncode).take 4 ∧
    (Message.new MessagePayload.emptyPayload m c).header.length = 0 ∧
    (Message.new MessagePayload.emptyPayload m c).header.checksum =
      [0x5D, 0xF6, 0xE0, 0xE2] ∧
    (sha256d (MessagePayload.emptyPayload.netEncode)).take 4 =
      [0x5D, 0xF6, 0xE0, 0xE2] := by
  refine ⟨?_, ?_, ?_, ?_, ?_⟩
  · have h2 : (Message.new p m c).header.length = p.len % 2 ^ 32 := rfl
    rw [h2]
    show p.netEncode.length % 2 ^ 32 = p.netEncode.length
    omega
  · cases p <;>
      simp [Message.new, MessageHeader.new, MessagePayload.checksum,
        MessagePayload.netEncode] <;>
      decide
  · simp [Message.new, MessageHeader.new, MessagePayload.len,
      MessagePayload.netEncode]
  · simp [Message.new, MessageHeader.new, MessagePayload.checksum]
  · decide

/-- Witness for C2: the 3-byte Dump payload gets length field 3, and the
empty payload the precomputed checksum. -/
theorem C2_amended_header_consistency_witness :
    (Message.new (.dump [1, 2, 3]) .main .verack).header.length = 3 ∧
    (Message.new .emptyPayload .main .verack).header.checksum =
      [0x5D, 0xF6, 0xE0, 0xE2] :=
  ⟨by simpa using
      (C2_amended_header_consistency (.dump [1, 2, 3]) .main .verack (by decide)).1,
   (C2_amended_header_consistency (.dump [1, 2, 3]) .main .verack (by decide)).2.2.2.1⟩

end BitTune
